import Mathlib

/-!
Verification of the extraction-and-normalization pipeline of the
price-per-tb repository (`crawl.py` and `hdd_price_scraper.py`).

The two Python files are embedded shallowly:

* character/string processing is modelled over `List Char`;
* Python `decimal.Decimal` and `float` values are modelled by the
  unnormalized fraction type `Dec` (`num : ℤ`, `den : ℕ`, denominator
  positive by construction); `Dec.toRat` maps a value into `ℚ` for
  stating value-level properties.  `Decimal` division is correctly
  rounded to the default context precision of 28 significant digits
  with round-half-even; this rounding is modelled exactly by
  `Dec.round28`.  Multiplications by the constant 1000 that occur in
  the sources shift a value by three decimal places, which is exact in
  a 28-significant-digit decimal context whenever the coefficient
  stays within precision (the theorems below restrict their inputs
  accordingly), so they are modelled as exact;
* operations that can raise a Python exception are modelled in
  `Except PyErr`; a caught exception is recovered exactly where the
  source catches it;
* `float("nan")`, `float("inf")` and underscore-separated digit
  groups are representable by Python's `float` but not by `ℚ`; the
  literal parser `numLit` treats them as parse failures.  No theorem
  below evaluates an input of that shape.
-/

/-- Python `\s` on ASCII text (`str` patterns are Unicode-aware; every
input quantified over in the theorems below is ASCII). -/
def isPySpace (c : Char) : Bool :=
  c = ' ' || c = '\t' || c = '\n' || c = '\r' || c = '\x0b' || c = '\x0c'

/-- Python `\w` / word character for `\b`, restricted to ASCII. -/
def isWordChar (c : Char) : Bool :=
  c.isAlpha || c.isDigit || c = '_'

/-- The character class `[0-9.]` of `re_size1` / `re_size2` in crawl.py. -/
def isSizeChar (c : Char) : Bool :=
  c.isDigit || c = '.'

/-- Value of a digit string, most significant digit first
(`int(s)` on a digit-only string). -/
def digitsVal (l : List Char) : ℕ :=
  l.foldl (fun a c => 10 * a + (c.toNat - 48)) 0

/-- `startsWithL p l`: `p` is an initial segment of `l`. -/
def startsWithL : List Char → List Char → Bool
  | [], _ => true
  | _ :: _, [] => false
  | p :: ps, c :: cs => p = c && startsWithL ps cs

/-- Index of the first occurrence of `pat` in a list, Python's
`str.find` (which returns `-1`, modelled as `none`, when absent). -/
def subIdx (pat : List Char) : List Char → Option ℕ
  | [] => if startsWithL pat [] then some 0 else none
  | c :: cs =>
    if startsWithL pat (c :: cs) then some 0
    else (subIdx pat cs).map (· + 1)

/-- Python `str.strip()`: remove leading and trailing whitespace. -/
def pyStrip (l : List Char) : List Char :=
  ((l.dropWhile isPySpace).reverse.dropWhile isPySpace).reverse

/-- Unnormalized decimal fraction: the value `num / den`.  Every
constructor below produces a positive `den`, so no gcd normalization
is needed and all operations are plain integer arithmetic. -/
structure Dec where
  num : ℤ
  den : ℕ
  deriving DecidableEq, Repr

/-- The rational value of a `Dec`. -/
def Dec.toRat (d : Dec) : ℚ := (d.num : ℚ) / (d.den : ℚ)

/-- Multiply by a natural constant (exact; see the header note on
context-precision multiplications). -/
def Dec.mulN (d : Dec) (k : ℕ) : Dec := ⟨d.num * k, d.den⟩

/-- Scale by `10 ^ z` for `z : ℤ` (exact exponent shift). -/
def Dec.scalePow (d : Dec) (z : ℤ) : Dec :=
  if 0 ≤ z then ⟨d.num * 10 ^ z.toNat, d.den⟩ else ⟨d.num, d.den * 10 ^ (-z).toNat⟩

/-- Exact quotient `a / b` as a fraction (caller guards `b.num ≠ 0`,
mirroring the `DivisionByZero` check in the pipeline). -/
def Dec.div (a b : Dec) : Dec :=
  if b.num = 0 then ⟨0, 1⟩
  else ⟨a.num * (b.den : ℤ) * b.num.sign, a.den * b.num.natAbs⟩

/-- Number of decimal digits minus one, fuel-driven so that it reduces
in the kernel: `log10F fuel n = ⌊log10 n⌋` whenever `fuel ≥ n ≥ 1`. -/
def log10F : ℕ → ℕ → ℕ
  | 0, _ => 0
  | fuel + 1, n => if n < 10 then 0 else log10F fuel (n / 10) + 1

/-- `⌊log10 n⌋` for `n ≥ 1`. -/
def nlog10 (n : ℕ) : ℕ := log10F n n

/-- `10 ^ c ≤ |d|` as a cross-multiplied integer comparison
(`d` interpreted as `num / den`). -/
def Dec.pow10LeAbs (d : Dec) (c : ℤ) : Bool :=
  if 0 ≤ c then d.den * 10 ^ c.toNat ≤ d.num.natAbs
  else d.den ≤ d.num.natAbs * 10 ^ (-c).toNat

/-- `⌊log10 |d|⌋` for `d ≠ 0`: the digit-count estimate is within one
of the true floor, corrected by one comparison. -/
def Dec.log10floor (d : Dec) : ℤ :=
  let c : ℤ := (nlog10 d.num.natAbs : ℤ) - (nlog10 d.den : ℤ)
  if d.pow10LeAbs c then c else c - 1

/-- Round a fraction to the nearest integer, ties to even
(`decimal.ROUND_HALF_EVEN`, the default context rounding). -/
def Dec.roundHalfEven (d : Dec) : ℤ :=
  let f := Int.fdiv d.num d.den
  let rem2 := 2 * (d.num - f * d.den)
  if rem2 < (d.den : ℤ) then f
  else if (d.den : ℤ) < rem2 then f + 1
  else if f % 2 = 0 then f else f + 1

/-- Correctly round a value to 28 significant decimal digits with
round-half-even: the result of a `decimal.Decimal` division under the
default context. -/
def Dec.round28 (d : Dec) : Dec :=
  if d.num = 0 then ⟨0, 1⟩
  else
    let a : Dec := ⟨(d.num.natAbs : ℤ), d.den⟩
    let e := a.log10floor
    let m := (a.scalePow (27 - e)).roundHalfEven
    (⟨m * d.num.sign, 1⟩ : Dec).scalePow (e - 27)

/-- Round to 2 decimal places, ties to even: models Python's
`round(x, 2)`.  (In `hdd_price_scraper.py` the rounded value is a
binary `float`; the model rounds the exact value, which agrees except
when the binary approximation falls on the other side of a literal
tie.  No theorem below evaluates such a tie.) -/
def Dec.round2 (d : Dec) : Dec :=
  ⟨Dec.roundHalfEven ⟨d.num * 100, d.den⟩, 100⟩

/-- Sign prefix of a Python numeric literal: `+`, `-`, or none. -/
def splitSign (l : List Char) : ℤ × List Char :=
  match l with
  | [] => (1, [])
  | c :: r => if c = '+' then (1, r) else if c = '-' then (-1, r) else (1, c :: r)

/-- Build the value `sgn * (ip . fp)` from integer and fractional
digit strings. -/
def decOfParts (sgn : ℤ) (ip fp : List Char) : Dec :=
  ⟨sgn * (digitsVal ip * 10 ^ fp.length + digitsVal fp), 10 ^ fp.length⟩

/-- Optional exponent tail `e<sign><digits>` of a numeric literal. -/
def expTail (v : Dec) (l : List Char) : Except Unit Dec :=
  match l with
  | [] => .ok v
  | e :: r =>
    if e = 'e' ∨ e = 'E' then
      let p := splitSign r
      let ed := p.2.takeWhile Char.isDigit
      if ed = [] ∨ p.2.dropWhile Char.isDigit ≠ [] then .error ()
      else .ok (v.scalePow (p.1 * (digitsVal ed : ℤ)))
    else .error ()

/-- Shared numeric-literal parser modelling both `float(s)` and
`decimal.Decimal(s)` on the string inputs the pipeline feeds them:
optional surrounding whitespace, optional sign, digits with at most
one decimal point (at least one digit overall), optional exponent.
A failure models `ValueError` (float) / `InvalidOperation` (Decimal). -/
def numLit (s : List Char) : Except Unit Dec :=
  let t := pyStrip s
  let p := splitSign t
  let ip := p.2.takeWhile Char.isDigit
  let r1 := p.2.dropWhile Char.isDigit
  match r1 with
  | [] => if ip = [] then .error () else .ok (decOfParts p.1 ip [])
  | c :: r2 =>
    if c = '.' then
      let fp := r2.takeWhile Char.isDigit
      let r3 := r2.dropWhile Char.isDigit
      if ip = [] ∧ fp = [] then .error ()
      else expTail (decOfParts p.1 ip fp) r3
    else
      if ip = [] then .error () else expTail (decOfParts p.1 ip []) (c :: r2)

/-- `\b` between two optional characters: exactly one side is a word
character. -/
def boundary (l r : Option Char) : Bool :=
  (match l with | some c => isWordChar c | none => false) !=
  (match r with | some c => isWordChar c | none => false)

/-- Next two characters are `/s` (the negative lookahead `(?!/s)`). -/
def startsSlashS (l : List Char) : Bool :=
  startsWithL ['/', 's'] l

/-- One match attempt of `re_size1` (`strict = true`,
`\b([0-9.]+) ?([TGtg])[Bb]\b(?!/s)`) or `re_size2` (`strict = false`,
`[Bb]` optional) at the start of `s`, with `prev` the character before
`s`.  Backtracking is resolved statically: a shorter `([0-9.]+)` match
leaves a `[0-9.]` character where ` ?([TGtg])` must match, and the
empty branch of ` ?` leaves the space itself there, so only the
maximal digit run and space consumption can succeed; likewise the
empty branch of `[Bb]?` places `\b` between two word characters
whenever a `[Bb]` character is present.  Returns the two groups. -/
def matchSizeAt (strict : Bool) (prev : Option Char) (s : List Char) :
    Option (List Char × Char) :=
  if !boundary prev s.head? then none
  else
    let g1 := s.takeWhile isSizeChar
    if g1 = [] then none
    else
      let r1 := s.dropWhile isSizeChar
      let r2 := if r1.head? = some ' ' then r1.tail else r1
      match r2 with
      | [] => none
      | u :: r3 =>
        if !(u = 'T' ∨ u = 'G' ∨ u = 't' ∨ u = 'g') then none
        else if strict then
          match r3 with
          | [] => none
          | b :: r4 =>
            if (b = 'B' ∨ b = 'b') ∧ boundary (some b) r4.head? = true ∧
                startsSlashS r4 = false then
              some (g1, u)
            else none
        else
          match r3 with
          | [] => some (g1, u)
          | b :: r4 =>
            if b = 'B' ∨ b = 'b' then
              if boundary (some b) r4.head? = true ∧ startsSlashS r4 = false then
                some (g1, u)
              else none
            else
              if boundary (some u) r3.head? = true ∧ startsSlashS r3 = false then
                some (g1, u)
              else none

/-- `re.search`: try successive start positions, leftmost match wins. -/
def searchSize (strict : Bool) : Option Char → List Char → Option (List Char × Char)
  | _, [] => none
  | prev, c :: cs =>
    match matchSizeAt strict prev (c :: cs) with
    | some r => some r
    | none => searchSize strict (some c) cs

/-- crawl.py, `parse_page` lines 238–241: `re_size1` first, falling
back to `re_size2`. -/
def crawl_size (title : List Char) : Option (List Char × Char) :=
  match searchSize true none title with
  | some m => some m
  | none => searchSize false none title

/-- Python exceptions observable in the modelled code paths. -/
inductive PyErr where
  | attributeError
  | typeError
  | assertionError
  | invalidOperation
  | divisionByZero
  deriving DecidableEq, Repr

/-- Capacity stage of crawl.py `parse_page` (lines 238–246) as a
function of the title: group 1 through `Decimal`, scaled by 1000 when
group 2 is uppercase `T`.  `.ok none` is the `continue` (no capacity
found); a malformed group such as `1..` raises `InvalidOperation`,
which nothing in `parse_page` catches. -/
def sizeGbOf (g1 : List Char) (g2 : Char) : Except PyErr Dec :=
  match numLit g1 with
  | .error _ => .error .invalidOperation
  | .ok v => .ok (if g2 = 'T' then v.mulN 1000 else v)

/-- The crawl.py capacity normalizer: regex search then `Decimal`
conversion and unit scaling. -/
def crawl_size_gb (title : List Char) : Except PyErr (Option Dec) :=
  match crawl_size title with
  | none => .ok none
  | some (g1, g2) =>
    match sizeGbOf g1 g2 with
    | .error e => .error e
    | .ok v => .ok (some v)

/-- Result of `item.find('.//a[@class="item-title"]')`:
`href` is the `href` attribute (`get` returns `None` when absent),
`text` is `text_content()`. -/
structure TitleLink where
  href : Option String
  text : String
  deriving DecidableEq, Repr

/-- Result of a `li[...]/strong` price lookup: `text` is `.text`
(possibly `None`), `next` is `getnext()` — `none` when there is no
following sibling, otherwise that sibling's `.text`. -/
structure PriceStrong where
  text : Option String
  next : Option (Option String)
  deriving DecidableEq, Repr

/-- One `div.item-container` of a Newegg listing page, abstracted to
the results of the DOM queries `parse_page`, `hidden_price` and
`out_of_stock` perform on it. -/
structure ItemNode where
  /-- `find('.//a[@class="item-title"]')`. -/
  titleLink : Option TitleLink
  /-- `find('.//li[@class="price-map"]/a')`, with its `.text`. -/
  priceMapAText : Option (Option String)
  /-- `find('.//li[@class="price-current"]')`, falling back to the
  `"price-current "` variant: `none` when both are absent, otherwise
  the number of child elements (`len(cur_price)`). -/
  curPriceLen : Option ℕ
  /-- `find('.//p[@class="item-promo"]')`, with its `text_content()`. -/
  promoText : Option String
  /-- `find('.//span[@class="btn btn-message "]')`, with its `.text`. -/
  btnMessageText : Option (Option String)
  /-- `find('.//li[@class="price-current"]/strong')`. -/
  dollars1 : Option PriceStrong
  /-- `find('.//li[@class="price-current "]/strong')`. -/
  dollars2 : Option PriceStrong
  /-- `find('.//span[@class="price-was-data"]')` is present. -/
  priceWas : Bool
  deriving DecidableEq, Repr

/-- crawl.py `hidden_price` (lines 162–166). -/
def hidden_price (it : ItemNode) : Bool :=
  match it.priceMapAText with
  | some (some t) => t == "See price in cart" || t == "See Price after Checkout"
  | _ => false

/-- The `btn_message` disjunct of `out_of_stock`. -/
def btnOOS (it : ItemNode) : Bool :=
  match it.btnMessageText with
  | some (some t) => t == "Out Of Stock"
  | _ => false

/-- crawl.py `out_of_stock` (lines 169–183).  A missing
`price-current` element fails the `assert cur_price is not None`.
The returned condition keeps Python's `and`/`or` precedence:
`(len == 0 and promo == "OUT OF STOCK") or btn == "Out Of Stock"`. -/
def out_of_stockE (it : ItemNode) : Except PyErr Bool :=
  match it.curPriceLen with
  | none => .error .assertionError
  | some n => .ok (((n == 0) && (it.promoText == some "OUT OF STOCK")) || btnOOS it)

/-- The `dollars` resolution of `parse_page` (lines 219–231):
`"COMING SOON"` and the `price-was-data` fallback both skip the item
(`.ok none`); when every lookup fails the subsequent
`dollars.getnext()` raises `AttributeError` on `None`. -/
def dollarsOf (it : ItemNode) : Except PyErr (Option PriceStrong) :=
  match it.dollars1 with
  | some d => if d.text == some "COMING SOON" then .ok none else .ok (some d)
  | none =>
    match it.dollars2 with
    | some d => .ok (some d)
    | none => if it.priceWas then .ok none else .error .attributeError

/-- `price_str = dollars.text + ("" if cents is None else cents.text)`
(line 232): adding `None` to a string raises `TypeError`. -/
def priceStrOf (d : PriceStrong) : Except PyErr (List Char) :=
  match d.text with
  | none => .error .typeError
  | some ds =>
    match d.next with
    | none => .ok ds.data
    | some none => .error .typeError
    | some (some cs) => .ok (ds.data ++ cs.data)

/-- `item_number = href[href.find("Item=") + 5:]` (line 205): when
`find` returns `-1` the slice silently starts at index `4`. -/
def itemNumberOf (href : List Char) : List Char :=
  match subIdx "Item=".data href with
  | some p => href.drop (p + 5)
  | none => href.drop 4

/-- One entry of crawl.py's `Item` `TypedDict`. -/
structure Item where
  price : Dec
  title : String
  size : String
  size_gb : Dec
  number : String
  price_per_tb : Dec
  deriving DecidableEq, Repr

/-- The body of the `for item in root.xpath(...)` loop of
crawl.py `parse_page` (lines 199–260) for a single item container:
`.ok none` models `continue`, `.error` an uncaught exception
(the price `try`/`except` block prints and re-raises). -/
def parseItem (it : ItemNode) : Except PyErr (Option Item) :=
  match it.titleLink with
  | none => .error .attributeError
  | some tl =>
    match tl.href with
    | none => .error .attributeError
    | some href =>
      let number := itemNumberOf href.data
      let title := tl.text
      if number = [] then .error .assertionError
      else if hidden_price it then .ok none
      else
        match out_of_stockE it with
        | .error e => .error e
        | .ok true => .ok none
        | .ok false =>
          match dollarsOf it with
          | .error e => .error e
          | .ok none => .ok none
          | .ok (some d) =>
            match priceStrOf d with
            | .error e => .error e
            | .ok pstr =>
              match numLit (pstr.filter (fun c => c != ',')) with
              | .error _ => .error .invalidOperation
              | .ok price =>
                match crawl_size title.data with
                | none => .ok none
                | some (g1, g2) =>
                  match sizeGbOf g1 g2 with
                  | .error e => .error e
                  | .ok size_gb =>
                    if size_gb.num = 0 then .error .divisionByZero
                    else
                      .ok (some
                        { price := price
                          title := title
                          size := String.mk (g1 ++ [g2, 'B'])
                          size_gb := size_gb
                          number := String.mk number
                          price_per_tb := ((price.div size_gb).round28).mulN 1000 })

/-- crawl.py `parse_page`: the item loop over all containers of one
page; an exception aborts the whole parse. -/
def parse_page : List ItemNode → Except PyErr (List Item)
  | [] => .ok []
  | n :: rest =>
    match parseItem n with
    | .error e => .error e
    | .ok r =>
      match parse_page rest with
      | .error e => .error e
      | .ok rs => .ok (match r with | none => rs | some i => i :: rs)

/-- The dedup loop of crawl.py `group_items` (lines 301–309): a `seen`
set of item numbers, first occurrence wins, later duplicates skipped. -/
def dedupGo (seen : List String) : List Item → List Item
  | [] => []
  | i :: rest =>
    if i.number ∈ seen then dedupGo seen rest
    else i :: dedupGo (i.number :: seen) rest

/-- Deduplicate a category's items by item number (`seen = set()`). -/
def dedupItems (l : List Item) : List Item := dedupGo [] l

/-- The sort key of `items.sort(key=lambda i: i["price_per_tb"])`:
comparison of `Decimal` values. -/
def rPT (a b : Item) : Prop := a.price_per_tb.toRat ≤ b.price_per_tb.toRat

instance : DecidableRel rPT := fun a b =>
  inferInstanceAs (Decidable (a.price_per_tb.toRat ≤ b.price_per_tb.toRat))

instance : IsTotal Item rPT := ⟨fun a b => le_total a.price_per_tb.toRat b.price_per_tb.toRat⟩

instance : IsTrans Item rPT := ⟨fun _ _ _ h h' => le_trans h h'⟩

/-- The dedup-then-rank core of crawl.py `group_items` for one
category (lines 301–311): deduplicate in input order, then sort
ascending by `price_per_tb`.  Python's `list.sort` is a stable sort;
a stable sort's output is uniquely determined by the key relation, so
`List.insertionSort` (also stable) is an exact model. -/
def group_items_core (l : List Item) : List Item :=
  List.insertionSort rPT (dedupItems l)

/-- `re.sub(r'(?:USD|CAD|EUR|GBP|\$|£|€|,)', '', s)`: left-to-right
scan, at each position the alternation is tried in order (the
alternatives start with pairwise distinct characters), an unmatched
character is kept. -/
def stripCurrency : List Char → List Char
  | [] => []
  | 'U' :: 'S' :: 'D' :: r => stripCurrency r
  | 'C' :: 'A' :: 'D' :: r => stripCurrency r
  | 'E' :: 'U' :: 'R' :: r => stripCurrency r
  | 'G' :: 'B' :: 'P' :: r => stripCurrency r
  | c :: r =>
    if c = '$' || c = '£' || c = '€' || c = ',' then stripCurrency r
    else c :: stripCurrency r

/-- The `try` body of hdd_price_scraper.py `parse_price`
(lines 53–57).  `price_str.split('-')[0]` keeps the text before the
first `-`; `re.sub(r'\s.*', '', s)` deletes everything from the first
whitespace character on (`.` stops at a newline, but the newline is
itself whitespace, so the deletion chains to the end); the final
`float(s.strip())` can raise `ValueError`, modelled as the error
case. -/
def parse_price_core (s : String) : Except Unit Dec :=
  let s1 := stripCurrency s.data
  let s2 := s1.takeWhile (fun c => c != '-')
  let s3 := s2.takeWhile (fun c => !isPySpace c)
  numLit (pyStrip s3)

/-- hdd_price_scraper.py `parse_price` (lines 50–60): `None` and the
empty string are falsy and return the sentinel at once; the
`except (ValueError, TypeError)` clause converts a failed float
conversion into the sentinel `None`. -/
def parse_price (ps : Option String) : Option Dec :=
  match ps with
  | none => none
  | some s =>
    if s = "" then none
    else
      match parse_price_core s with
      | .ok v => some v
      | .error _ => none

/-- `\b` after a unit word of `parse_capacity_tb`'s patterns. -/
def wordBreakAfter (rest : List Char) : Bool :=
  match rest with
  | [] => true
  | c :: _ => !isWordChar c

/-- The alternation `(?:u1|u2)\b` at the start of `rest` (the two
alternatives begin with distinct second characters, so the regex
engine's first-match order cannot change the outcome). -/
def unitAltOk (u1 u2 rest : List Char) : Bool :=
  (startsWithL u1 rest && wordBreakAfter (rest.drop u1.length)) ||
  (startsWithL u2 rest && wordBreakAfter (rest.drop u2.length))

/-- One match attempt of `(\d{1,3})\s*(?:tb|terabyte)\b` at the start
of `s`.  Greedy backtracking resolved statically: any digit-count
shorter than the full run leaves a digit where `\s*(?:tb…)` must
match, so a position matches exactly when the digit run from it has
length 1–3 and the unit follows the whole run. -/
def matchTbAt (s : List Char) : Option (List Char) :=
  let d := s.takeWhile Char.isDigit
  if 1 ≤ d.length ∧ d.length ≤ 3 then
    let rest := (s.drop d.length).dropWhile isPySpace
    if unitAltOk "tb".data "terabyte".data rest then some d else none
  else none

/-- One match attempt of `(\d{3,5})\s*(?:gb|gigabyte)\b`. -/
def matchGbAt (s : List Char) : Option (List Char) :=
  let d := s.takeWhile Char.isDigit
  if 3 ≤ d.length ∧ d.length ≤ 5 then
    let rest := (s.drop d.length).dropWhile isPySpace
    if unitAltOk "gb".data "gigabyte".data rest then some d else none
  else none

/-- `re.search` for a matcher without left context: leftmost start
position wins. -/
def searchList (m : List Char → Option (List Char)) : List Char → Option (List Char)
  | [] => m []
  | c :: cs =>
    match m (c :: cs) with
    | some r => some r
    | none => searchList m cs

/-- hdd_price_scraper.py `parse_capacity_tb` (lines 62–70): lower-case
the title (`str.lower`, ASCII here), try the terabyte pattern
(`int(group)` terabytes), then the gigabyte pattern
(`round(int(group) / 1000.0, 2)` terabytes), else the sentinel.
The returned number is a count of terabytes, not gigabytes. -/
def parse_capacity_tb (title : Option String) : Option Dec :=
  match title with
  | none => none
  | some t =>
    if t = "" then none
    else
      let tl := t.data.map Char.toLower
      match searchList matchTbAt tl with
      | some d => some ⟨(digitsVal d : ℤ), 1⟩
      | none =>
        match searchList matchGbAt tl with
        | some d => some (Dec.round2 ⟨(digitsVal d : ℤ), 1000⟩)
        | none => none

/-- One row of the scraper's `all_results` before the derived column:
`Retailer`, `Title`, `URL`, `Capacity (TB)`, `Price`. -/
structure SRec where
  retailer : String
  title : String
  url : String
  capacityTB : ℚ
  price : ℚ

/-- A row of `df_sorted`: the same fields plus `Price per TB ($)`. -/
structure NRec where
  retailer : String
  title : String
  url : String
  capacityTB : ℚ
  price : ℚ
  pricePerTB : ℚ

/-- Round-half-even to the nearest integer on `ℚ` (Python `round`). -/
def qRoundHalfEven (q : ℚ) : ℤ :=
  let f := Int.fdiv q.num q.den
  let rem2 := 2 * (q.num - f * q.den)
  if rem2 < (q.den : ℤ) then f
  else if (q.den : ℤ) < rem2 then f + 1
  else if f % 2 = 0 then f else f + 1

/-- Python `round(x, 2)` on an exact value (float caveat as for
`Dec.round2`). -/
def qRound2 (q : ℚ) : ℚ := (qRoundHalfEven (q * 100) : ℚ) / 100

/-- The `Price per TB ($)` column (hdd_price_scraper.py lines
542–545): `round(Price / Capacity, 2)` when the capacity is positive,
else `None`; the subsequent `dropna` removes the `None` rows, so the
two steps together are a `filterMap`. -/
def mkPPTB (r : SRec) : Option NRec :=
  if 0 < r.capacityTB then
    some ⟨r.retailer, r.title, r.url, r.capacityTB, r.price, qRound2 (r.price / r.capacityTB)⟩
  else none

/-- The two-key sort order of
`df.sort_values(by=['Price per TB ($)', 'Retailer'], ascending=True)`:
lexicographic on the pair.  pandas compares `Retailer` strings by
Python's code-point order, which is `String`'s linear order. -/
def sortKey (a b : NRec) : Prop :=
  a.pricePerTB < b.pricePerTB ∨ (a.pricePerTB = b.pricePerTB ∧ a.retailer ≤ b.retailer)

instance : DecidableRel sortKey := fun _ _ =>
  inferInstanceAs (Decidable (_ ∨ _))

instance : IsTotal NRec sortKey := by
  constructor
  intro a b
  rcases lt_trichotomy a.pricePerTB b.pricePerTB with h | h | h
  · exact Or.inl (Or.inl h)
  · rcases le_total a.retailer b.retailer with h' | h'
    · exact Or.inl (Or.inr ⟨h, h'⟩)
    · exact Or.inr (Or.inr ⟨h.symm, h'⟩)
  · exact Or.inr (Or.inl h)

instance : IsTrans NRec sortKey := by
  constructor
  intro a b c hab hbc
  rcases hab with hab | ⟨hab, hab'⟩
  · rcases hbc with hbc | ⟨hbc, _⟩
    · exact Or.inl (hab.trans hbc)
    · exact Or.inl (hbc ▸ hab)
  · rcases hbc with hbc | ⟨hbc, hbc'⟩
    · exact Or.inl (hab ▸ hbc)
    · exact Or.inr ⟨hab.trans hbc, hab'.trans hbc'⟩

/-- hdd_price_scraper.py `df_sorted` (lines 541–546): derive the
price-per-TB column, drop rows where it is `None`, sort by
`(pricePerTB, retailer)`.  pandas' default quicksort is not stable,
but every correct comparison sort of the same key yields a sequence
sorted by `sortKey`, which is all the ranking claims state; the model
uses `List.insertionSort`. -/
def df_sorted (l : List SRec) : List NRec :=
  List.insertionSort sortKey (l.filterMap mkPPTB)

theorem takeWhile_append_all {p : Char → Bool} {l r : List Char}
    (h : ∀ c ∈ l, p c = true) : (l ++ r).takeWhile p = l ++ r.takeWhile p := by
  induction l with
  | nil => simp
  | cons c cs ih =>
    have hc : p c = true := h c (by simp)
    simp only [List.cons_append, List.takeWhile_cons, hc, if_true]
    exact congrArg (c :: ·) (ih (fun x hx => h x (by simp [hx])))

theorem dropWhile_append_all {p : Char → Bool} {l r : List Char}
    (h : ∀ c ∈ l, p c = true) : (l ++ r).dropWhile p = r.dropWhile p := by
  induction l with
  | nil => simp
  | cons c cs ih =>
    have hc : p c = true := h c (by simp)
    simp only [List.cons_append, List.dropWhile_cons, hc, if_true]
    exact ih (fun x hx => h x (by simp [hx]))

theorem takeWhile_all {p : Char → Bool} {l : List Char}
    (h : ∀ c ∈ l, p c = true) : l.takeWhile p = l := by
  have := takeWhile_append_all (r := []) h
  simpa using this

theorem dropWhile_all {p : Char → Bool} {l : List Char}
    (h : ∀ c ∈ l, p c = true) : l.dropWhile p = [] := by
  have := dropWhile_append_all (r := []) h
  simpa using this

theorem dropWhile_all_false {p : Char → Bool} {l : List Char}
    (h : ∀ c ∈ l, p c = false) : l.dropWhile p = l := by
  cases l with
  | nil => rfl
  | cons c cs => simp [List.dropWhile_cons, h c (by simp)]

theorem pyStrip_eq_self {l : List Char} (h : ∀ c ∈ l, isPySpace c = false) :
    pyStrip l = l := by
  unfold pyStrip
  rw [dropWhile_all_false h,
    dropWhile_all_false (fun c hc => h c (List.mem_reverse.mp hc)),
    List.reverse_reverse]

theorem sizeChar_not_space {c : Char} (h : isSizeChar c = true) :
    isPySpace c = false := by
  cases hc : isPySpace c with
  | false => rfl
  | true =>
    exfalso
    simp only [isPySpace, Bool.or_eq_true, decide_eq_true_eq] at hc
    rcases hc with ((((rfl | rfl) | rfl) | rfl) | rfl) | rfl <;>
      exact absurd h (by decide)

theorem digit_sizeChar {c : Char} (h : c.isDigit = true) : isSizeChar c = true := by
  simp [isSizeChar, h]

theorem digit_wordChar {c : Char} (h : c.isDigit = true) : isWordChar c = true := by
  simp [isWordChar, h]

theorem sizeChar_not_sign {c : Char} (h : isSizeChar c = true) :
    c ≠ '+' ∧ c ≠ '-' := by
  constructor <;> rintro rfl <;> exact absurd h (by decide)

/-- Specification-level value of a decimal numeral string `<digits>`
or `<digits>.<digits>`. -/
def numeralVal (N : List Char) : ℚ :=
  match N.dropWhile Char.isDigit with
  | '.' :: fp =>
    (digitsVal (N.takeWhile Char.isDigit) : ℚ) + (digitsVal fp : ℚ) / 10 ^ fp.length
  | _ => (digitsVal (N.takeWhile Char.isDigit) : ℚ)

/-- A numeral of the shape the spec's `"<N>TB"` / `"<N>GB"` forms use:
a nonempty digit string, optionally followed by `.` and further
digits. -/
def WfNumeral (N : List Char) : Prop :=
  ∃ D1 D2, (N = D1 ∨ N = D1 ++ '.' :: D2) ∧ D1 ≠ [] ∧
    (∀ c ∈ D1, c.isDigit = true) ∧ (∀ c ∈ D2, c.isDigit = true)

theorem wfNumeral_sizeChars {N : List Char} (h : WfNumeral N) :
    ∀ c ∈ N, isSizeChar c = true := by
  obtain ⟨D1, D2, hN, -, hd1, hd2⟩ := h
  intro c hc
  rcases hN with rfl | rfl
  · exact digit_sizeChar (hd1 c hc)
  · rcases List.mem_append.mp hc with hc | hc
    · exact digit_sizeChar (hd1 c hc)
    · rcases List.mem_cons.mp hc with rfl | hc
      · decide
      · exact digit_sizeChar (hd2 c hc)

theorem splitSign_no_sign {l : List Char} (h : ∀ c ∈ l, isSizeChar c = true) :
    splitSign l = (1, l) := by
  cases l with
  | nil => rfl
  | cons c cs =>
    have hc := sizeChar_not_sign (h c (by simp))
    simp [splitSign, hc.1, hc.2]

theorem numLit_int {D1 : List Char} (hne : D1 ≠ [])
    (hd1 : ∀ c ∈ D1, c.isDigit = true) :
    numLit D1 = .ok (decOfParts 1 D1 []) := by
  have hsz : ∀ c ∈ D1, isSizeChar c = true := fun c hc => digit_sizeChar (hd1 c hc)
  have hstrip : pyStrip D1 = D1 :=
    pyStrip_eq_self (fun c hc => sizeChar_not_space (hsz c hc))
  have hsign : splitSign D1 = (1, D1) := splitSign_no_sign hsz
  have htake : List.takeWhile Char.isDigit D1 = D1 := takeWhile_all hd1
  have hdrop : List.dropWhile Char.isDigit D1 = [] := dropWhile_all hd1
  simp only [numLit, hstrip, hsign, hdrop, htake]
  simp [hne]

theorem numLit_frac {D1 D2 : List Char} (hne : D1 ≠ [])
    (hd1 : ∀ c ∈ D1, c.isDigit = true) (hd2 : ∀ c ∈ D2, c.isDigit = true) :
    numLit (D1 ++ '.' :: D2) = .ok (decOfParts 1 D1 D2) := by
  have hsz : ∀ c ∈ D1 ++ '.' :: D2, isSizeChar c = true :=
    wfNumeral_sizeChars ⟨D1, D2, Or.inr rfl, hne, hd1, hd2⟩
  have hstrip : pyStrip (D1 ++ '.' :: D2) = D1 ++ '.' :: D2 :=
    pyStrip_eq_self (fun c hc => sizeChar_not_space (hsz c hc))
  have hsign : splitSign (D1 ++ '.' :: D2) = (1, D1 ++ '.' :: D2) :=
    splitSign_no_sign hsz
  have htake : List.takeWhile Char.isDigit (D1 ++ '.' :: D2) = D1 := by
    rw [takeWhile_append_all hd1]
    simp [List.takeWhile_cons]
  have hdrop : List.dropWhile Char.isDigit (D1 ++ '.' :: D2) = '.' :: D2 := by
    rw [dropWhile_append_all hd1]
    simp [List.dropWhile_cons]
  have htake2 : List.takeWhile Char.isDigit D2 = D2 := takeWhile_all hd2
  have hdrop2 : List.dropWhile Char.isDigit D2 = [] := dropWhile_all hd2
  simp only [numLit, hstrip, hsign, hdrop, htake, htake2, hdrop2]
  simp [hne, expTail]

theorem toRat_decOfParts_int {D1 : List Char} :
    (decOfParts 1 D1 []).toRat = (digitsVal D1 : ℚ) := by
  have h0 : digitsVal ([] : List Char) = 0 := rfl
  simp [decOfParts, Dec.toRat, h0]

theorem toRat_decOfParts_frac {D1 D2 : List Char} :
    (decOfParts 1 D1 D2).toRat =
      (digitsVal D1 : ℚ) + (digitsVal D2 : ℚ) / 10 ^ D2.length := by
  have h10 : ((10 : ℚ) ^ D2.length) ≠ 0 := by positivity
  simp only [decOfParts, Dec.toRat, one_mul]
  push_cast
  field_simp

theorem numLit_wf {N : List Char} (h : WfNumeral N) :
    ∃ v : Dec, numLit N = .ok v ∧ v.toRat = numeralVal N ∧ 0 < v.den := by
  obtain ⟨D1, D2, hN, hne, hd1, hd2⟩ := h
  rcases hN with rfl | rfl
  · have htake : List.takeWhile Char.isDigit N = N := takeWhile_all hd1
    have hdrop : List.dropWhile Char.isDigit N = [] := dropWhile_all hd1
    refine ⟨decOfParts 1 N [], numLit_int hne hd1, ?_, by simp [decOfParts]⟩
    rw [toRat_decOfParts_int]
    simp only [numeralVal, hdrop, htake]
  · have htake : List.takeWhile Char.isDigit (D1 ++ '.' :: D2) = D1 := by
      rw [takeWhile_append_all hd1]
      simp [List.takeWhile_cons]
    have hdrop : List.dropWhile Char.isDigit (D1 ++ '.' :: D2) = '.' :: D2 := by
      rw [dropWhile_append_all hd1]
      simp [List.dropWhile_cons]
    refine ⟨decOfParts 1 D1 D2, numLit_frac hne hd1 hd2, ?_, by
      simp only [decOfParts]; positivity⟩
    rw [toRat_decOfParts_frac]
    simp only [numeralVal, hdrop, htake]

theorem boundary_none_digit {c : Char} (hc : c.isDigit = true) :
    boundary none (some c) = true := by
  simp [boundary, digit_wordChar hc]

theorem matchSizeAt_numeral {c : Char} {cs : List Char} (hc : c.isDigit = true)
    (hsz : ∀ x ∈ c :: cs, isSizeChar x = true) {u : Char}
    (hus : isSizeChar u = false) (husp : u ≠ ' ')
    (hu : u = 'T' ∨ u = 'G' ∨ u = 't' ∨ u = 'g') :
    matchSizeAt true none ((c :: cs) ++ [u, 'B']) = some (c :: cs, u) := by
  have hg1 : List.takeWhile isSizeChar ((c :: cs) ++ [u, 'B']) = c :: cs := by
    rw [takeWhile_append_all hsz]
    simp [List.takeWhile_cons, hus]
  have hr1 : List.dropWhile isSizeChar ((c :: cs) ++ [u, 'B']) = [u, 'B'] := by
    rw [dropWhile_append_all hsz]
    simp [List.dropWhile_cons, hus]
  have hb : boundary none (((c :: cs) ++ [u, 'B']).head?) = true := by
    simpa [List.cons_append] using boundary_none_digit hc
  simp only [matchSizeAt, hb, Bool.not_true, if_false, hg1, hr1]
  simp [husp, hu]
  exact ⟨by decide, by decide⟩

theorem searchSize_numeral {c : Char} {cs : List Char} (hc : c.isDigit = true)
    (hsz : ∀ x ∈ c :: cs, isSizeChar x = true) {u : Char}
    (hus : isSizeChar u = false) (husp : u ≠ ' ')
    (hu : u = 'T' ∨ u = 'G' ∨ u = 't' ∨ u = 'g') :
    searchSize true none ((c :: cs) ++ [u, 'B']) = some (c :: cs, u) := by
  have hm := matchSizeAt_numeral hc hsz hus husp hu
  rw [List.cons_append] at hm ⊢
  simp only [searchSize, hm]

theorem crawl_size_numeral {c : Char} {cs : List Char} (hc : c.isDigit = true)
    (hsz : ∀ x ∈ c :: cs, isSizeChar x = true) {u : Char}
    (hus : isSizeChar u = false) (husp : u ≠ ' ')
    (hu : u = 'T' ∨ u = 'G' ∨ u = 't' ∨ u = 'g') :
    crawl_size ((c :: cs) ++ [u, 'B']) = some (c :: cs, u) := by
  simp only [crawl_size, searchSize_numeral hc hsz hus husp hu]

theorem matchSizeAt_g1 {strict : Bool} {prev : Option Char} {s g1 : List Char}
    {u : Char} (h : matchSizeAt strict prev s = some (g1, u)) :
    g1 = s.takeWhile isSizeChar := by
  simp only [matchSizeAt] at h
  split at h
  · exact absurd h (by simp)
  · split at h
    · exact absurd h (by simp)
    · split at h
      · exact absurd h (by simp)
      · split at h
        · exact absurd h (by simp)
        · split at h
          · split at h
            · exact absurd h (by simp)
            · split at h
              · simp only [Option.some.injEq, Prod.mk.injEq] at h
                exact h.1.symm
              · exact absurd h (by simp)
          · split at h
            · simp only [Option.some.injEq, Prod.mk.injEq] at h
              exact h.1.symm
            · split at h
              · split at h
                · simp only [Option.some.injEq, Prod.mk.injEq] at h
                  exact h.1.symm
                · exact absurd h (by simp)
              · split at h
                · simp only [Option.some.injEq, Prod.mk.injEq] at h
                  exact h.1.symm
                · exact absurd h (by simp)

theorem searchSize_g1_chars {strict : Bool} :
    ∀ {prev : Option Char} {s g1 : List Char} {u : Char},
      searchSize strict prev s = some (g1, u) → ∀ x ∈ g1, isSizeChar x = true := by
  intro prev s
  induction s generalizing prev with
  | nil => intro g1 u h; simp [searchSize] at h
  | cons c cs ih =>
    intro g1 u h
    simp only [searchSize] at h
    cases hm : matchSizeAt strict prev (c :: cs) with
    | some r =>
      rw [hm] at h
      simp only [Option.some.injEq] at h
      subst h
      intro x hx
      exact List.mem_takeWhile_imp ((matchSizeAt_g1 hm) ▸ hx)
    | none =>
      rw [hm] at h
      exact ih h

theorem crawl_size_g1_chars {s g1 : List Char} {u : Char}
    (h : crawl_size s = some (g1, u)) : ∀ x ∈ g1, isSizeChar x = true := by
  simp only [crawl_size] at h
  cases hm : searchSize true none s with
  | some r =>
    rw [hm] at h
    simp only [Option.some.injEq] at h
    subst h
    exact searchSize_g1_chars hm
  | none =>
    rw [hm] at h
    exact searchSize_g1_chars h

theorem dropWhile_head_false {p : Char → Bool} :
    ∀ {l r : List Char} {c : Char}, l.dropWhile p = c :: r → p c = false := by
  intro l
  induction l with
  | nil => intro r c h; simp [List.dropWhile] at h
  | cons a as ih =>
    intro r c h
    rw [List.dropWhile_cons] at h
    by_cases hp : p a = true
    · rw [if_pos hp] at h
      exact ih h
    · rw [if_neg hp] at h
      cases h
      simpa using hp

theorem expTail_preserves {w v : Dec} {l : List Char} (h : expTail w l = .ok v) :
    (0 ≤ w.num → 0 ≤ v.num) ∧ (0 < w.den → 0 < v.den) := by
  cases l with
  | nil =>
    simp only [expTail, Except.ok.injEq] at h
    subst h
    exact ⟨id, id⟩
  | cons e r =>
    simp only [expTail] at h
    split at h
    · split at h
      · exact absurd h (by simp)
      · simp only [Except.ok.injEq] at h
        subst h
        unfold Dec.scalePow
        split <;>
          exact ⟨fun hn => by positivity, fun hd => by positivity⟩
    · exact absurd h (by simp)

theorem numLit_nonneg {l : List Char} {v : Dec}
    (hsz : ∀ c ∈ l, isSizeChar c = true) (h : numLit l = .ok v) :
    0 ≤ v.num ∧ 0 < v.den := by
  have hstrip : pyStrip l = l :=
    pyStrip_eq_self (fun c hc => sizeChar_not_space (hsz c hc))
  have hsign : splitSign l = (1, l) := splitSign_no_sign hsz
  simp only [numLit, hstrip, hsign] at h
  cases hdrop : List.dropWhile Char.isDigit l with
  | nil =>
    simp only [hdrop] at h
    by_cases htw : List.takeWhile Char.isDigit l = []
    · rw [if_pos htw] at h
      exact absurd h (by simp)
    · rw [if_neg htw] at h
      simp only [Except.ok.injEq] at h
      subst h
      constructor
      · simp only [decOfParts]
        positivity
      · simp only [decOfParts]
        positivity
  | cons c r2 =>
    simp only [hdrop] at h
    have hcsz : isSizeChar c = true := by
      refine hsz c ?_
      exact (List.dropWhile_sublist Char.isDigit).mem (hdrop ▸ List.mem_cons_self c r2)
    have hcnd : c.isDigit = false := dropWhile_head_false hdrop
    have hcdot : c = '.' := by
      simp only [isSizeChar, hcnd, Bool.false_or, decide_eq_true_eq] at hcsz
      exact hcsz
    subst hcdot
    rw [if_pos rfl] at h
    split at h
    · exact absurd h (by simp)
    · have hp := expTail_preserves h
      refine ⟨hp.1 ?_, hp.2 ?_⟩
      · simp only [decOfParts]
        positivity
      · simp only [decOfParts]
        positivity

theorem toRat_nonneg_pos {d : Dec} (hn : 0 < d.num) (hd : 0 < d.den) :
    0 < d.toRat := by
  have h1 : (0 : ℚ) < (d.num : ℚ) := by exact_mod_cast hn
  have h2 : (0 : ℚ) < (d.den : ℚ) := by exact_mod_cast hd
  exact div_pos h1 h2

theorem toRat_mulN (d : Dec) (k : ℕ) : (d.mulN k).toRat = d.toRat * k := by
  simp only [Dec.mulN, Dec.toRat]
  push_cast
  ring

theorem dedupGo_not_seen : ∀ (seen : List String) (l : List Item) (x : Item),
    x ∈ dedupGo seen l → x.number ∉ seen := by
  intro seen l
  induction l generalizing seen with
  | nil => intro x hx; simp [dedupGo] at hx
  | cons i rest ih =>
    intro x hx
    simp only [dedupGo] at hx
    by_cases hmem : i.number ∈ seen
    · rw [if_pos hmem] at hx
      exact ih seen x hx
    · rw [if_neg hmem] at hx
      rcases List.mem_cons.mp hx with rfl | hx'
      · exact hmem
      · intro hxs
        exact (ih _ x hx') (List.mem_cons_of_mem _ hxs)

theorem dedupGo_nodup : ∀ (seen : List String) (l : List Item),
    ((dedupGo seen l).map Item.number).Nodup := by
  intro seen l
  induction l generalizing seen with
  | nil => simp [dedupGo]
  | cons i rest ih =>
    by_cases hmem : i.number ∈ seen
    · simp only [dedupGo, if_pos hmem]
      exact ih seen
    · simp only [dedupGo, if_neg hmem, List.map_cons]
      refine List.nodup_cons.mpr ⟨?_, ih _⟩
      intro hmem2
      rcases List.mem_map.mp hmem2 with ⟨x, hx, hxe⟩
      exact (dedupGo_not_seen _ _ x hx) (by rw [hxe]; exact List.mem_cons_self _ _)

theorem dedupGo_eq_self : ∀ (seen : List String) (l : List Item),
    (∀ x ∈ l, x.number ∉ seen) → (l.map Item.number).Nodup → dedupGo seen l = l := by
  intro seen l
  induction l generalizing seen with
  | nil => intro _ _; rfl
  | cons i rest ih =>
    intro hns hnd
    have hmem : i.number ∉ seen := hns i (List.mem_cons_self _ _)
    rw [List.map_cons, List.nodup_cons] at hnd
    simp only [dedupGo, if_neg hmem]
    congr 1
    refine ih _ ?_ hnd.2
    intro x hx hseen
    rcases List.mem_cons.mp hseen with heq | hseen'
    · exact hnd.1 (heq ▸ List.mem_map_of_mem Item.number hx)
    · exact hns x (List.mem_cons_of_mem _ hx) hseen'

theorem sizeGbOf_pos {g1 : List Char} {g2 : Char} {sz : Dec}
    (hchar : ∀ x ∈ g1, isSizeChar x = true)
    (h : sizeGbOf g1 g2 = .ok sz) (hnz : sz.num ≠ 0) : 0 < sz.toRat := by
  unfold sizeGbOf at h
  cases hnl : numLit g1 with
  | error e => rw [hnl] at h; exact absurd h (by simp)
  | ok v =>
    simp only [hnl, Except.ok.injEq] at h
    subst h
    have hv := numLit_nonneg hchar hnl
    by_cases hT : g2 = 'T'
    · simp only [if_pos hT] at hnz ⊢
      refine toRat_nonneg_pos ?_ hv.2
      have h0 : (0 : ℤ) ≤ v.num * 1000 := mul_nonneg hv.1 (by norm_num)
      rcases lt_or_eq_of_le h0 with hlt | heq
      · simpa [Dec.mulN] using hlt
      · exact absurd heq.symm (by simpa [Dec.mulN] using hnz)
    · simp only [if_neg hT] at hnz ⊢
      refine toRat_nonneg_pos ?_ hv.2
      rcases lt_or_eq_of_le hv.1 with hlt | heq
      · exact hlt
      · exact absurd heq.symm hnz

theorem parseItem_emit {it : ItemNode} {r : Item}
    (h : parseItem it = .ok (some r)) :
    (∃ tl href, it.titleLink = some tl ∧ tl.href = some href ∧
      r.number = String.mk (itemNumberOf href.data) ∧ itemNumberOf href.data ≠ []) ∧
    0 < r.size_gb.toRat ∧
    r.price_per_tb = ((r.price.div r.size_gb).round28).mulN 1000 := by
  unfold parseItem at h
  cases htl : it.titleLink with
  | none => rw [htl] at h; exact absurd h (by simp)
  | some tl =>
    simp only [htl] at h
    cases thref : tl.href with
    | none => rw [thref] at h; exact absurd h (by simp)
    | some href =>
      simp only [thref] at h
      by_cases hnum : itemNumberOf href.data = []
      · rw [if_pos hnum] at h
        exact absurd h (by simp)
      · rw [if_neg hnum] at h
        by_cases hhid : hidden_price it = true
        · rw [if_pos hhid] at h
          exact absurd h (by simp)
        · rw [if_neg hhid] at h
          cases hoos : out_of_stockE it with
          | error e => simp only [hoos] at h; exact absurd h (by simp)
          | ok b =>
            cases b with
            | true => simp only [hoos] at h; exact absurd h (by simp)
            | false =>
              simp only [hoos] at h
              cases hdol : dollarsOf it with
              | error e => simp only [hdol] at h; exact absurd h (by simp)
              | ok od =>
                cases od with
                | none => simp only [hdol] at h; exact absurd h (by simp)
                | some d =>
                  simp only [hdol] at h
                  cases hps : priceStrOf d with
                  | error e => simp only [hps] at h; exact absurd h (by simp)
                  | ok pstr =>
                    simp only [hps] at h
                    cases hnl : numLit (pstr.filter (fun c => c != ',')) with
                    | error e => simp only [hnl] at h; exact absurd h (by simp)
                    | ok price =>
                      simp only [hnl] at h
                      cases hcs : crawl_size tl.text.data with
                      | none => simp only [hcs] at h; exact absurd h (by simp)
                      | some m =>
                        simp only [hcs] at h
                        cases hsg : sizeGbOf m.1 m.2 with
                        | error e =>
                          simp only [hsg] at h
                          exact absurd h (by simp)
                        | ok sz =>
                          simp only [hsg] at h
                          by_cases hz : sz.num = 0
                          · rw [if_pos hz] at h
                            exact absurd h (by simp)
                          · rw [if_neg hz] at h
                            simp only [Except.ok.injEq, Option.some.injEq] at h
                            subst h
                            refine ⟨⟨tl, href, rfl, thref, rfl, hnum⟩, ?_, rfl⟩
                            exact sizeGbOf_pos (crawl_size_g1_chars hcs) hsg hz

theorem parse_page_mem {nodes : List ItemNode} {res : List Item}
    (h : parse_page nodes = .ok res) {r : Item} (hr : r ∈ res) :
    ∃ it ∈ nodes, parseItem it = .ok (some r) := by
  induction nodes generalizing res with
  | nil =>
    simp only [parse_page, Except.ok.injEq] at h
    subst h
    simp at hr
  | cons n rest ih =>
    simp only [parse_page] at h
    cases hpi : parseItem n with
    | error e => rw [hpi] at h; exact absurd h (by simp)
    | ok r0 =>
      simp only [hpi] at h
      cases hpp : parse_page rest with
      | error e => rw [hpp] at h; exact absurd h (by simp)
      | ok rs =>
        simp only [hpp, Except.ok.injEq] at h
        cases r0 with
        | none =>
          subst h
          rcases ih hpp hr with ⟨it, hit, he⟩
          exact ⟨it, List.mem_cons_of_mem _ hit, he⟩
        | some i =>
          subst h
          rcases List.mem_cons.mp hr with rfl | hr'
          · exact ⟨n, List.mem_cons_self _ _, hpi⟩
          · rcases ih hpp hr' with ⟨it, hit, he⟩
            exact ⟨it, List.mem_cons_of_mem _ hit, he⟩

theorem crawl_size_gb_numeral {N : List Char} (hwf : WfNumeral N) {u : Char}
    (hu : u = 'T' ∨ u = 'G') :
    ∃ v, crawl_size_gb (N ++ [u, 'B']) = .ok (some v) ∧
      v.toRat = (if u = 'T' then numeralVal N * 1000 else numeralVal N) := by
  obtain ⟨vd, hnl, hval, -⟩ := numLit_wf hwf
  have hsz : ∀ c ∈ N, isSizeChar c = true := wfNumeral_sizeChars hwf
  have hus : isSizeChar u = false := by rcases hu with rfl | rfl <;> decide
  have husp : u ≠ ' ' := by rcases hu with rfl | rfl <;> decide
  have hu4 : u = 'T' ∨ u = 'G' ∨ u = 't' ∨ u = 'g' := by
    rcases hu with rfl | rfl
    · exact Or.inl rfl
    · exact Or.inr (Or.inl rfl)
  obtain ⟨D1, D2, hN, hne, hd1, hd2⟩ := hwf
  obtain ⟨d, D1', rfl⟩ : ∃ d D1', D1 = d :: D1' := by
    cases D1 with
    | nil => exact absurd rfl hne
    | cons d D1' => exact ⟨d, D1', rfl⟩
  have hcs : ∃ c cs, N = c :: cs ∧ c.isDigit = true := by
    rcases hN with rfl | rfl
    · exact ⟨d, D1', rfl, hd1 d (by simp)⟩
    · exact ⟨d, D1' ++ '.' :: D2, by simp, hd1 d (by simp)⟩
  obtain ⟨c, cs, hNe, hcd⟩ := hcs
  have hsz' : ∀ x ∈ c :: cs, isSizeChar x = true := hNe ▸ hsz
  have hcsz := crawl_size_numeral hcd hsz' hus husp hu4
  rw [← hNe] at hcsz
  refine ⟨if u = 'T' then vd.mulN 1000 else vd, ?_, ?_⟩
  · simp only [crawl_size_gb, hcsz, sizeGbOf, hnl]
  · by_cases hT : u = 'T'
    · simp [hT, toRat_mulN, hval]
    · simp [hT, hval]

/-- C1: the crawl.py capacity normalizer satisfies all four stated
properties (value expressed in gigabytes): `"<N>TB"` parses to
`N * 1000`, `"<N>GB"` to `N`, `"6Gb/s"` is rejected by the `(?!/s)`
lookahead, and the fractional `"1.92TB"` yields `1920`.  The scraper's
`parse_capacity_tb`, by contrast, returns a count of terabytes and
matches only 1–3 consecutive digits before the unit, so `"1.92TB"`
yields `92` (the digits `92` followed by `tb`), not `1.92` terabytes.
The `N.length ≤ 25` bound keeps the `Decimal` multiplication by 1000
within the 28-significant-digit context, where the model's exact
scaling is faithful. -/
theorem C1_capacity_normalizer_amended :
    (∀ N : List Char, WfNumeral N → N.length ≤ 25 →
      (∃ v, crawl_size_gb (N ++ "TB".data) = .ok (some v) ∧
        v.toRat = numeralVal N * 1000) ∧
      (∃ w, crawl_size_gb (N ++ "GB".data) = .ok (some w) ∧
        w.toRat = numeralVal N)) ∧
    crawl_size_gb "6Gb/s".data = .ok none ∧
    (∃ v, crawl_size_gb "1.92TB".data = .ok (some v) ∧ v.toRat = 1920) ∧
    (∃ c, parse_capacity_tb (some "1.92TB") = some c ∧ c.toRat = 92) := by
  refine ⟨?_, ?_, ?_, ?_⟩
  · intro N hwf _
    constructor
    · obtain ⟨v, h1, h2⟩ := crawl_size_gb_numeral hwf (Or.inl rfl)
      rw [if_pos rfl] at h2
      exact ⟨v, h1, h2⟩
    · obtain ⟨v, h1, h2⟩ := crawl_size_gb_numeral hwf (Or.inr rfl)
      rw [if_neg (by decide)] at h2
      exact ⟨v, h1, h2⟩
  · rfl
  · exact ⟨⟨192000, 100⟩, rfl, by norm_num [Dec.toRat]⟩
  · exact ⟨⟨92, 1⟩, rfl, by norm_num [Dec.toRat]⟩

/-- C1 witness: the amended theorem applied at `N = "4"`. -/
theorem C1_capacity_witness :
    ∃ v, crawl_size_gb ("4".data ++ "TB".data) = .ok (some v) ∧
      v.toRat = numeralVal "4".data * 1000 := by
  have hwf : WfNumeral "4".data :=
    ⟨['4'], [], Or.inl rfl, by decide, by decide, by decide⟩
  exact (C1_capacity_normalizer_amended.1 "4".data hwf (by decide)).1

/-- C1 counterexample: on `"1.92TB"` the scraper's capacity normalizer
returns `92`, which is neither `1920` (the claimed gigabyte count) nor
`1.92` (the capacity in its own terabyte unit). -/
theorem C1_capacity_counterexample :
    parse_capacity_tb (some "1.92TB") = some ⟨92, 1⟩ ∧
    Dec.toRat ⟨92, 1⟩ ≠ 1920 ∧ Dec.toRat ⟨92, 1⟩ ≠ (192 : ℚ) / 100 :=
  ⟨rfl, by norm_num [Dec.toRat], by norm_num [Dec.toRat]⟩

/-- C2: the four stated behaviours of `parse_price` in
hdd_price_scraper.py: currency symbols and thousands separators are
stripped, a range keeps its lower bound, trailing free text after the
first whitespace is dropped, and `"N/A"` yields the `None` sentinel. -/
theorem C2_parse_price_examples :
    (parse_price (some "$1,234.56")).map Dec.toRat = some ((123456 : ℚ) / 100) ∧
    (parse_price (some "€99 - €120")).map Dec.toRat = some 99 ∧
    (parse_price (some "19.99 (free shipping)")).map Dec.toRat = some ((1999 : ℚ) / 100) ∧
    parse_price (some "N/A") = none := by
  refine ⟨?_, ?_, ?_, rfl⟩
  · rw [show parse_price (some "$1,234.56") = some ⟨123456, 100⟩ from rfl]
    norm_num [Dec.toRat, Option.map]
  · rw [show parse_price (some "€99 - €120") = some ⟨99, 1⟩ from rfl]
    norm_num [Dec.toRat, Option.map]
  · rw [show parse_price (some "19.99 (free shipping)") = some ⟨1999, 100⟩ from rfl]
    norm_num [Dec.toRat, Option.map]

/-- C10: both normalizers guard falsy input (`None` or the empty
string) before any other operation and return the sentinel at once. -/
theorem C10_falsy_guards :
    parse_price none = none ∧ parse_price (some "") = none ∧
    parse_capacity_tb none = none ∧ parse_capacity_tb (some "") = none :=
  ⟨rfl, rfl, rfl, rfl⟩

theorem dedupGo_filter {k : String} : ∀ (seen : List String) (l : List Item),
    (k ∈ seen → (dedupGo seen l).filter (fun i => i.number == k) = []) ∧
    (k ∉ seen → (dedupGo seen l).filter (fun i => i.number == k) =
      (l.filter (fun i => i.number == k)).take 1) := by
  intro seen l
  induction l generalizing seen with
  | nil => exact ⟨fun _ => rfl, fun _ => rfl⟩
  | cons i rest ih =>
    constructor
    · intro hk
      by_cases hmem : i.number ∈ seen
      · simp only [dedupGo, if_pos hmem]
        exact (ih seen).1 hk
      · simp only [dedupGo, if_neg hmem]
        rw [List.filter_cons]
        have hne : ¬(i.number == k) = true := by
          intro hbeq
          exact hmem (beq_iff_eq.mp hbeq ▸ hk)
        rw [if_neg hne]
        exact (ih (i.number :: seen)).1 (List.mem_cons_of_mem _ hk)
    · intro hk
      by_cases hmem : i.number ∈ seen
      · simp only [dedupGo, if_pos hmem]
        have hne : ¬(i.number == k) = true := by
          intro hbeq
          exact hk (beq_iff_eq.mp hbeq ▸ hmem)
        rw [List.filter_cons, if_neg hne]
        exact (ih seen).2 hk
      · simp only [dedupGo, if_neg hmem]
        by_cases hik : (i.number == k) = true
        · rw [List.filter_cons, if_pos hik, List.filter_cons, if_pos hik]
          have h1 : (dedupGo (i.number :: seen) rest).filter (fun i => i.number == k) = [] :=
            (ih _).1 (by rw [← beq_iff_eq.mp hik]; exact List.mem_cons_self _ _)
          rw [h1]
          rfl
        · rw [List.filter_cons, if_neg hik, List.filter_cons, if_neg hik]
          refine (ih (i.number :: seen)).2 ?_
          intro hx
          rcases List.mem_cons.mp hx with heq | hx'
          · exact hik (beq_iff_eq.mpr heq.symm)
          · exact hk hx'

/-- C3: ranking invariant.  For the scraper's `df_sorted`, every
adjacent pair of the output is non-decreasing in `pricePerTB`, with
equal values ordered by retailer name; for crawl.py's per-category
dedup-and-sort, every adjacent pair is non-decreasing in
`price_per_tb` (all of one category's records come from the single
retailer the program scrapes, so the retailer tie-break is trivially
satisfied there). -/
theorem C3_ranking_invariant :
    (∀ l : List SRec, List.Chain'
      (fun a b => a.pricePerTB ≤ b.pricePerTB ∧
        (a.pricePerTB = b.pricePerTB → a.retailer ≤ b.retailer))
      (df_sorted l)) ∧
    (∀ l : List Item, List.Chain'
      (fun a b => a.price_per_tb.toRat ≤ b.price_per_tb.toRat)
      (group_items_core l)) := by
  constructor
  · intro l
    have hs : List.Pairwise sortKey (df_sorted l) :=
      List.sorted_insertionSort sortKey (l.filterMap mkPPTB)
    refine List.Chain'.imp ?_ hs.chain'
    intro a b hab
    rcases hab with hlt | ⟨heq, hle⟩
    · exact ⟨le_of_lt hlt, fun he => ((ne_of_lt hlt) he).elim⟩
    · exact ⟨le_of_eq heq, fun _ => hle⟩
  · intro l
    have hs : List.Pairwise rPT (group_items_core l) :=
      List.sorted_insertionSort rPT (dedupItems l)
    exact hs.chain'

/-- C4: dedup drops later records with a repeated item number and
keeps exactly the first occurrence in input order; the survivor is
the head of the filtered input and is the only record with that
number in the ranked output.  (crawl.py scrapes a single retailer, so
its dedup key — the bare item number — coincides with the spec's
`(retailer, itemId)` pair on every record the program handles.) -/
theorem C4_dedup_first_wins (l : List Item) (k : String)
    (h2 : 2 ≤ (l.filter (fun i => i.number == k)).length) :
    ∃ a, (l.filter (fun i => i.number == k)).head? = some a ∧
      (group_items_core l).filter (fun i => i.number == k) = [a] := by
  have hf := (dedupGo_filter (k := k) [] l).2 (List.not_mem_nil k)
  cases hfl : l.filter (fun i => i.number == k) with
  | nil => rw [hfl] at h2; simp at h2
  | cons a t =>
    refine ⟨a, rfl, ?_⟩
    have hd : (dedupItems l).filter (fun i => i.number == k) = [a] := by
      unfold dedupItems
      rw [hf, hfl]
      rfl
    have hperm := (List.perm_insertionSort rPT (dedupItems l)).filter
      (fun i => i.number == k)
    rw [hd] at hperm
    exact List.perm_singleton.mp hperm

/-- C9: the dedup-then-rank pass of crawl.py `group_items` is
idempotent: its output has pairwise-distinct item numbers, so a second
dedup removes nothing, and it is already sorted, so the stable sort
leaves it unchanged. -/
theorem C9_dedupe_rank_idempotent (l : List Item) :
    group_items_core (group_items_core l) = group_items_core l := by
  unfold group_items_core
  have hnd : ((dedupItems l).map Item.number).Nodup := dedupGo_nodup [] l
  have hperm := List.perm_insertionSort rPT (dedupItems l)
  have hnd2 : ((List.insertionSort rPT (dedupItems l)).map Item.number).Nodup :=
    ((hperm.map Item.number).nodup_iff).mpr hnd
  have hded : dedupItems (List.insertionSort rPT (dedupItems l)) =
      List.insertionSort rPT (dedupItems l) :=
    dedupGo_eq_self [] _ (fun x _ => List.not_mem_nil _) hnd2
  rw [hded]
  exact List.Sorted.insertionSort_eq (List.sorted_insertionSort rPT (dedupItems l))

/-- A 3 GB listing priced 1.00: its price-per-TB quotient 1/3 is not
representable in 28 significant digits. -/
def itemThirdGB : ItemNode :=
  { titleLink := some ⟨some "https://www.newegg.com/Product/Product.aspx?Item=N82E100", "HDD 3GB"⟩
    priceMapAText := none
    curPriceLen := some 1
    promoText := none
    btnMessageText := none
    dollars1 := some ⟨some "1.00", none⟩
    dollars2 := none
    priceWas := false }

/-- The record `parse_page` emits for `itemThirdGB`: the stored
`price_per_tb` is the 28-digit rounding of 1/3, scaled by 1000. -/
def thirdRec : Item :=
  { price := ⟨100, 100⟩
    title := "HDD 3GB"
    size := "3GB"
    size_gb := ⟨3, 1⟩
    number := "N82E100"
    price_per_tb := ⟨3333333333333333333333333333000, 10000000000000000000000000000⟩ }

/-- A 4 TB listing priced 79.99 with split dollars/cents nodes: the
quotient 0.0199975 is exactly representable. -/
def c5witNode : ItemNode :=
  { titleLink := some ⟨some "https://www.newegg.com/Product/Product.aspx?Item=N82E555", "HDD 4TB"⟩
    priceMapAText := none
    curPriceLen := some 1
    promoText := none
    btnMessageText := none
    dollars1 := some ⟨some "79", some (some ".99")⟩
    dollars2 := none
    priceWas := false }

/-- The record `parse_page` emits for `c5witNode`
(price per TB exactly 19.9975). -/
def c5witRec : Item :=
  { price := ⟨7999, 100⟩
    title := "HDD 4TB"
    size := "4TB"
    size_gb := ⟨4000, 1⟩
    number := "N82E555"
    price_per_tb := ⟨1999750000000000000000000000000, 100000000000000000000000000000⟩ }

/-- An item whose rendered price text is `"N/A"`: `Decimal` raises
`InvalidOperation`, which crawl.py prints and re-raises. -/
def itemBadPrice : ItemNode :=
  { titleLink := some ⟨some "https://www.newegg.com/Product/Product.aspx?Item=N82E200", "HDD 4TB"⟩
    priceMapAText := none
    curPriceLen := some 1
    promoText := none
    btnMessageText := none
    dollars1 := some ⟨some "N/A", none⟩
    dollars2 := none
    priceWas := false }

/-- A valid listing whose product URL carries no `Item=` parameter. -/
def c8badItem : ItemNode :=
  { titleLink := some ⟨some "https://x/p/9", "HDD 2TB"⟩
    priceMapAText := none
    curPriceLen := some 1
    promoText := none
    btnMessageText := none
    dollars1 := some ⟨some "10", none⟩
    dollars2 := none
    priceWas := false }

/-- The record `parse_page` emits for `c8badItem`: the item number is
the garbage slice `href[4:]`. -/
def c8badRec : Item :=
  { price := ⟨10, 1⟩
    title := "HDD 2TB"
    size := "2TB"
    size_gb := ⟨2000, 1⟩
    number := "s://x/p/9"
    price_per_tb := ⟨5000000000000000000000000000000, 1000000000000000000000000000000⟩ }

/-- An item container whose `price-current` element exists but is
childless (no rendered price) and whose promo node reads OUT OF
STOCK. -/
def c7okItem : ItemNode :=
  { titleLink := some ⟨some "https://www.newegg.com/Product/Product.aspx?Item=N82E700", "HDD 8TB"⟩
    priceMapAText := none
    curPriceLen := some 0
    promoText := some "OUT OF STOCK"
    btnMessageText := none
    dollars1 := none
    dollars2 := none
    priceWas := false }

/-- An item container with a rendered current price and a
button-message node reading Out Of Stock. -/
def c7xItem : ItemNode :=
  { titleLink := some ⟨some "https://www.newegg.com/Product/Product.aspx?Item=N82E701", "HDD 8TB"⟩
    priceMapAText := none
    curPriceLen := some 2
    promoText := none
    btnMessageText := some (some "Out Of Stock")
    dollars1 := some ⟨some "199", some (some ".99")⟩
    dollars2 := none
    priceWas := false }

/-- Modelled from the spec: the claim's out-of-stock condition —
absence of a rendered current price (a missing or childless
`price-current` element) combined with either a promotional-text node
reading "OUT OF STOCK" or a button-message node reading
"Out Of Stock". -/
def spec_out_of_stock (it : ItemNode) : Bool :=
  ((it.curPriceLen == none) || (it.curPriceLen == some 0)) &&
  ((it.promoText == some "OUT OF STOCK") || btnOOS it)

/-- One scraper result row: 79.99 for a 4 TB drive. -/
def c5sRec : SRec :=
  { retailer := "ServerPartDeals"
    title := "X 4TB"
    url := "https://spd/x"
    capacityTB := 4
    price := (7999 : ℚ) / 100 }

/-- The `df_sorted` row for `c5sRec`: the stored price per TB is the
2-decimal rounding of 19.9975. -/
def c5nRec : NRec :=
  { retailer := "ServerPartDeals"
    title := "X 4TB"
    url := "https://spd/x"
    capacityTB := 4
    price := (7999 : ℚ) / 100
    pricePerTB := qRound2 ((7999 : ℚ) / 100 / 4) }

/-- C5: in both pipelines the ranking metric is derived from the
record's own price and capacity fields, never stored independently,
and its capacity is strictly positive — but in neither is it computed
in exact arithmetic.  crawl.py stores `(price / size_gb) * 1000` with
the `Decimal` quotient correctly rounded to 28 significant digits;
whenever that rounding is exact, the stored value equals the exact
`price * 1000 / capacityGB`.  hdd_price_scraper.py's `df_sorted`
stores `round(Price / Capacity (TB), 2)`, a 2-decimal rounding of the
same ratio (`capacityGB = capacityTB * 1000`); whenever that rounding
is exact, the stored value equals the exact
`price * 1000 / capacityGB`.  Neither rounding is always exact (see
the counterexample). -/
theorem C5_price_per_tb_amended :
    (∀ (nodes : List ItemNode) (res : List Item), parse_page nodes = .ok res →
      ∀ r ∈ res,
        0 < r.size_gb.toRat ∧
        r.price_per_tb = ((r.price.div r.size_gb).round28).mulN 1000 ∧
        ((r.price.div r.size_gb).round28.toRat = r.price.toRat / r.size_gb.toRat →
          r.price_per_tb.toRat = r.price.toRat * 1000 / r.size_gb.toRat)) ∧
    (∀ l : List SRec, ∀ r ∈ df_sorted l,
      0 < r.capacityTB ∧
      r.pricePerTB = qRound2 (r.price / r.capacityTB) ∧
      (qRound2 (r.price / r.capacityTB) = r.price / r.capacityTB →
        r.pricePerTB = r.price * 1000 / (r.capacityTB * 1000))) := by
  constructor
  · intro nodes res h r hr
    obtain ⟨it, -, hit⟩ := parse_page_mem h hr
    obtain ⟨-, hpos, hform⟩ := parseItem_emit hit
    refine ⟨hpos, hform, ?_⟩
    intro hex
    rw [hform, toRat_mulN, hex]
    exact div_mul_eq_mul_div _ _ _
  · intro l r hr
    have hr' : r ∈ l.filterMap mkPPTB :=
      ((List.perm_insertionSort sortKey (l.filterMap mkPPTB)).mem_iff).mp hr
    rcases List.mem_filterMap.mp hr' with ⟨s, -, hmk⟩
    unfold mkPPTB at hmk
    by_cases hpos : 0 < s.capacityTB
    · rw [if_pos hpos] at hmk
      simp only [Option.some.injEq] at hmk
      subst hmk
      refine ⟨hpos, rfl, ?_⟩
      intro hex
      rw [hex]
      exact (mul_div_mul_right s.price s.capacityTB
        (by norm_num : (1000 : ℚ) ≠ 0)).symm
    · rw [if_neg hpos] at hmk
      exact absurd hmk (by simp)

/-- C5 witness: the amended theorem applied to the concrete 79.99 /
4 TB listing in both pipelines — the crawl.py quotient 0.0199975 is
exactly representable in 28 digits, while the scraper row stores the
2-decimal rounding of 19.9975. -/
theorem C5_price_per_tb_witness :
    (0 < c5witRec.size_gb.toRat ∧
      c5witRec.price_per_tb = ((c5witRec.price.div c5witRec.size_gb).round28).mulN 1000 ∧
      ((c5witRec.price.div c5witRec.size_gb).round28.toRat =
          c5witRec.price.toRat / c5witRec.size_gb.toRat →
        c5witRec.price_per_tb.toRat =
          c5witRec.price.toRat * 1000 / c5witRec.size_gb.toRat)) ∧
    (0 < c5nRec.capacityTB ∧
      c5nRec.pricePerTB = qRound2 (c5nRec.price / c5nRec.capacityTB) ∧
      (qRound2 (c5nRec.price / c5nRec.capacityTB) = c5nRec.price / c5nRec.capacityTB →
        c5nRec.pricePerTB = c5nRec.price * 1000 / (c5nRec.capacityTB * 1000))) := by
  constructor
  · exact C5_price_per_tb_amended.1 [c5witNode] [c5witRec] rfl c5witRec
      (List.mem_singleton.mpr rfl)
  · refine C5_price_per_tb_amended.2 [c5sRec] c5nRec ?_
    have h4 : (0 : ℚ) < 4 := by norm_num
    have hdf : df_sorted [c5sRec] = [c5nRec] := by
      simp [df_sorted, mkPPTB, c5sRec, c5nRec, h4, List.insertionSort,
        List.orderedInsert]
    rw [hdf]
    exact List.mem_singleton.mpr rfl

/-- C5 counterexample: for the 1.00 / 3 GB listing the stored
price-per-TB is the 28-digit rounding of 1000/3 and differs from the
exact value `price * 1000 / capacityGB`. -/
theorem C5_inexact_counterexample :
    parse_page [itemThirdGB] = .ok [thirdRec] ∧
    thirdRec.price_per_tb.toRat ≠ thirdRec.price.toRat * 1000 / thirdRec.size_gb.toRat := by
  refine ⟨rfl, ?_⟩
  norm_num [thirdRec, Dec.toRat]

/-- C6: in hdd_price_scraper.py both normalizers signal failure only
through the `None` sentinel — `parse_price`'s float conversion either
succeeds or raises the `ValueError` its `except` clause catches, and
`parse_capacity_tb` is exception-free — but in crawl.py the price
normalization re-raises `decimal.InvalidOperation` after logging, so
a malformed price string aborts the extraction of the whole page. -/
theorem C6_sentinel_amended :
    (∀ s : String, (∃ v, parse_price_core s = .ok v) ∨ parse_price_core s = .error ()) ∧
    (∀ ps : Option String, parse_price ps = none ∨ ∃ v, parse_price ps = some v) ∧
    (∀ t : Option String, parse_capacity_tb t = none ∨ ∃ v, parse_capacity_tb t = some v) ∧
    parseItem itemBadPrice = .error .invalidOperation := by
  refine ⟨?_, ?_, ?_, rfl⟩
  · intro s
    cases h : parse_price_core s with
    | ok v => exact Or.inl ⟨v, rfl⟩
    | error e => cases e; exact Or.inr rfl
  · intro ps
    cases h : parse_price ps with
    | none => exact Or.inl rfl
    | some v => exact Or.inr ⟨v, rfl⟩
  · intro t
    cases h : parse_capacity_tb t with
    | none => exact Or.inl rfl
    | some v => exact Or.inr ⟨v, rfl⟩

/-- C6 counterexample: the rendered price text `"N/A"` makes the
`InvalidOperation` escape crawl.py's extraction loop, against the
claim that normalization failures never raise. -/
theorem C6_exception_counterexample :
    parse_page [itemBadPrice] = .error .invalidOperation := rfl

/-- C7: an item container whose `price-current` element exists but is
childless and whose promo node reads OUT OF STOCK is classified out
of stock and produces zero records without an exception.  The code's
actual condition keeps Python's `and`/`or` precedence —
`(childless-price and promo) or button` — so the button branch fires
regardless of the price, and a container lacking the `price-current`
element altogether fails an `assert` instead of being classified. -/
theorem C7_out_of_stock_amended :
    (∀ (it : ItemNode) (tl : TitleLink) (href : String),
      it.titleLink = some tl → tl.href = some href →
      itemNumberOf href.data ≠ [] → hidden_price it = false →
      it.curPriceLen = some 0 → it.promoText = some "OUT OF STOCK" →
      parseItem it = .ok none) ∧
    (∀ (it : ItemNode) (n : ℕ), it.curPriceLen = some n →
      out_of_stockE it =
        .ok (((n == 0) && (it.promoText == some "OUT OF STOCK")) || btnOOS it)) ∧
    (∀ it : ItemNode, it.curPriceLen = none →
      out_of_stockE it = .error .assertionError) := by
  refine ⟨?_, ?_, ?_⟩
  · intro it tl href h1 h2 h3 h4 h5 h6
    have hoos : out_of_stockE it = .ok true := by
      simp [out_of_stockE, h5, h6]
    simp [parseItem, h1, h2, h3, h4, hoos]
  · intro it n h
    simp [out_of_stockE, h]
  · intro it h
    simp [out_of_stockE, h]

/-- C7 witness: the amended theorem applied to the concrete childless
price / OUT OF STOCK container. -/
theorem C7_out_of_stock_witness : parseItem c7okItem = .ok none :=
  C7_out_of_stock_amended.1 c7okItem
    ⟨some "https://www.newegg.com/Product/Product.aspx?Item=N82E700", "HDD 8TB"⟩
    "https://www.newegg.com/Product/Product.aspx?Item=N82E700"
    rfl rfl (by decide) rfl rfl rfl

/-- C7 counterexample: an item with a rendered price and a
button-message node reading Out Of Stock is classified out of stock
by the code although the claim's condition (which requires the price
to be absent) does not hold. -/
theorem C7_precedence_counterexample :
    out_of_stockE c7xItem = .ok true ∧ spec_out_of_stock c7xItem = false :=
  ⟨rfl, rfl⟩

/-- C8: the item identifier is the slice of the product URL after the
first `"Item="`; when `"Item="` is absent, `str.find` returns `-1`
and the slice silently starts at index 4, so a syntactically valid
but garbage identifier is derived instead of a loud failure.  Only an
empty identifier trips the `assert` (which aborts the whole parse,
not just the item), so every emitted record's identifier is nonempty
and equals `itemNumberOf` of its URL. -/
theorem C8_item_identifier_amended :
    (∀ href : List Char,
      (subIdx "Item=".data href = none → itemNumberOf href = href.drop 4) ∧
      (∀ p, subIdx "Item=".data href = some p → itemNumberOf href = href.drop (p + 5))) ∧
    (∀ (it : ItemNode) (r : Item), parseItem it = .ok (some r) →
      ∃ tl href, it.titleLink = some tl ∧ tl.href = some href ∧
        r.number = String.mk (itemNumberOf href.data) ∧ r.number ≠ "") := by
  constructor
  · intro href
    constructor
    · intro h
      simp [itemNumberOf, h]
    · intro p h
      simp [itemNumberOf, h]
  · intro it r h
    obtain ⟨⟨tl, href, h1, h2, h3, h4⟩, -, -⟩ := parseItem_emit h
    refine ⟨tl, href, h1, h2, h3, ?_⟩
    rw [h3]
    intro hemp
    exact h4 (by simpa using congrArg String.data hemp)

/-- C8 witness: the second conjunct applied to the concrete 3 GB
listing, whose URL does carry `Item=`. -/
theorem C8_item_identifier_witness :
    ∃ tl href, itemThirdGB.titleLink = some tl ∧ tl.href = some href ∧
      thirdRec.number = String.mk (itemNumberOf href.data) ∧ thirdRec.number ≠ "" :=
  C8_item_identifier_amended.2 itemThirdGB thirdRec rfl

/-- C8 counterexample: a URL without `Item=` still produces a record,
whose identifier is the garbage slice `href[4:]` — extraction neither
derives the identifier from an `Item=` parameter nor fails loudly. -/
theorem C8_garbage_id_counterexample :
    subIdx "Item=".data "https://x/p/9".data = none ∧
    parse_page [c8badItem] = .ok [c8badRec] ∧
    c8badRec.number = "s://x/p/9" ∧ c8badRec.number ≠ "" := by
  refine ⟨rfl, rfl, rfl, by decide⟩

/-- First occurrence of item number `N1` (price 79.99). -/
def c4first : Item :=
  { price := ⟨7999, 100⟩
    title := "Acme 4TB HDD"
    size := "4TB"
    size_gb := ⟨4000, 1⟩
    number := "N1"
    price_per_tb := ⟨2, 1⟩ }

/-- A later re-fetch of the same item number `N1` with a different
price (84.99). -/
def c4second : Item :=
  { price := ⟨8499, 100⟩
    title := "Acme 4TB HDD"
    size := "4TB"
    size_gb := ⟨4000, 1⟩
    number := "N1"
    price_per_tb := ⟨1, 1⟩ }

/-- C4 witness: the dedup theorem applied to two records sharing an
item number but differing in price. -/
theorem C4_dedup_witness :
    ∃ a, ([c4first, c4second].filter (fun i => i.number == "N1")).head? = some a ∧
      (group_items_core [c4first, c4second]).filter (fun i => i.number == "N1") = [a] :=
  C4_dedup_first_wins [c4first, c4second] "N1" (by decide)
